import Mathlib

/-!
Verification of the stock-fetcher core: the freshness-aware cache and fetch
orchestration layer, and the period-aggregation engine.

The Go source is shallowly embedded as follows.

* Price fields (open, high, low, close) and volumes are Go float64 values
  parsed from fixed 2-decimal display strings; they are embedded as exact
  rationals.  Percentage fields that the Go code renders with the format
  string "%.2f%%" (and renders as the empty string when no predecessor
  signal exists) are embedded as Option Rat: none stands for the empty
  string, some q for the formatted value of q.  The properties verified here
  concern the defining formulas, not decimal rounding.
* Go compares strings byte-wise; dates and period keys are ASCII, where the
  byte-wise order agrees with the code-point order embedded here.
* The SQLite table daily_prices has primary key (symbol, date); the cache
  is modelled per symbol as a list of rows in which an INSERT OR REPLACE
  is an in-place update when the date is present and an append otherwise.
  All reads go through an ORDER BY date query, so row order inside the
  table is unobservable.
* Go time.Time values are embedded as a calendar date (year, month, day)
  plus a seconds-of-day component; time.Since is the difference of the
  absolute second counts.
-/

set_option linter.unusedVariables false

namespace StockFetcher

/-! ### Go byte-wise string comparison -/

/-- Lexicographic comparison of char lists by code point, mirroring Go's
byte-wise string < on ASCII data. -/
def charsLt : List Char → List Char → Bool
  | [], [] => false
  | [], _ :: _ => true
  | _ :: _, [] => false
  | a :: as, b :: bs =>
    if a.toNat < b.toNat then true
    else if b.toNat < a.toNat then false
    else charsLt as bs

/-- Go string comparison a < b. -/
def strLt (a b : String) : Bool := charsLt a.data b.data

/-- Go string comparison a <= b. -/
def strLe (a b : String) : Bool := strLt a b || a == b

/-! ### Daily records (struct StockData) and cached rows -/

/-- One day of stock data, mirroring Go struct StockData.  Numeric fields
are the float64 values parsed from the stored display strings; Change and
HChange are the derived percentage fields, none standing for the empty
string. -/
structure StockData where
  Date : String
  Open : ℚ
  High : ℚ
  Low : ℚ
  Close : ℚ
  Volume : ℚ
  Change : Option ℚ
  HChange : Option ℚ
  PE : String
  deriving Repr, DecidableEq

/-- A raw row of the daily_prices table: OHLCV plus PE, keyed by date.
Change and HChange are not stored. -/
structure PriceRow where
  date : String
  openP : ℚ
  highP : ℚ
  lowP : ℚ
  closeP : ℚ
  volume : ℚ
  pe : String
  deriving Repr, DecidableEq

/-! ### Drop classification (period.go) -/

/-- classifyDropPct returns which drop bucket a percentage change falls
into: 0 if no significant drop, or 2, 3, 4, 5 for the drop bucket. -/
def classifyDropPct (pctChange : ℚ) : Nat :=
  if 0 ≤ pctChange then 0
  else
    let absChange := -pctChange
    if 5 ≤ absChange then 5
    else if 4 ≤ absChange then 4
    else if 3 ≤ absChange then 3
    else if 2 ≤ absChange then 2
    else 0

/-- calculateDrops computes the Close-based and Low-based drop bucket
classifications against the previous close. -/
def calculateDrops (closeV lowV prevClose : ℚ) : Nat × Nat :=
  if prevClose ≤ 0 then (0, 0)
  else
    let closePct := (closeV - prevClose) / prevClose * 100
    let lowPct := (lowV - prevClose) / prevClose * 100
    (classifyDropPct closePct, classifyDropPct lowPct)

/-- The four drop-day counters (for one of the two C/L families). -/
structure DropCounters where
  d2 : Nat
  d3 : Nat
  d4 : Nat
  d5 : Nat
  deriving Repr, DecidableEq

/-- incrementDropCount bumps the counter selected by the bucket, leaving
the counters unchanged for any other bucket value. -/
def incrementDropCount (bucket : Nat) (c : DropCounters) : DropCounters :=
  match bucket with
  | 2 => { c with d2 := c.d2 + 1 }
  | 3 => { c with d3 := c.d3 + 1 }
  | 4 => { c with d4 := c.d4 + 1 }
  | 5 => { c with d5 := c.d5 + 1 }
  | _ => c

/-- Total of the four drop counters. -/
def DropCounters.total (c : DropCounters) : Nat := c.d2 + c.d3 + c.d4 + c.d5

/-! ### Calendar model (Go time package, as used by the code) -/

/-- A calendar date: year, month (1-12), day of month (1-31). -/
structure Date where
  year : Int
  month : Nat
  day : Nat
  deriving Repr, DecidableEq

/-- Go's leap-year rule.  Comparisons with 0 agree between Go's truncated
remainder and the Euclidean remainder used here, for all integers. -/
def isLeapYear (y : Int) : Bool := y % 4 == 0 && (y % 100 != 0 || y % 400 == 0)

/-- Cumulative days before the given month in a non-leap year
(Go's daysBefore table). -/
def daysBefore (m : Nat) : Nat :=
  match m with
  | 1 => 0 | 2 => 31 | 3 => 59 | 4 => 90 | 5 => 120 | 6 => 151
  | 7 => 181 | 8 => 212 | 9 => 243 | 10 => 273 | 11 => 304 | 12 => 334
  | _ => 365

/-- Length of a month. -/
def daysInMonth (leap : Bool) (m : Nat) : Nat :=
  match m with
  | 1 => 31 | 2 => if leap then 29 else 28 | 3 => 31 | 4 => 30 | 5 => 31 | 6 => 30
  | 7 => 31 | 8 => 31 | 9 => 30 | 10 => 31 | 11 => 30 | 12 => 31
  | _ => 0

/-- Day of year (1-based), as Go's Time.YearDay computes it from the
calendar date. -/
def yearDayOf (leap : Bool) (m d : Nat) : Nat :=
  daysBefore m + d + (if leap && decide (3 ≤ m) then 1 else 0)

/-- Day of year of a date. -/
def Date.yearDay (dt : Date) : Nat := yearDayOf (isLeapYear dt.year) dt.month dt.day

/-- A date is valid when the month is 1-12 and the day fits the month. -/
def Date.validB (dt : Date) : Bool :=
  1 ≤ dt.month && dt.month ≤ 12 && 1 ≤ dt.day &&
    dt.day ≤ daysInMonth (isLeapYear dt.year) dt.month

/-- A Go time.Time value: a calendar date plus the second within the day.
The code only inspects the calendar fields, the year day and differences of
absolute seconds. -/
structure GoTime where
  d : Date
  tod : Nat
  deriving Repr, DecidableEq

/-! ### Fetch metadata (struct FetchMeta) -/

/-- Fetch metadata for one symbol, mirroring Go struct FetchMeta (the
symbol key itself is implicit: the whole cache model is per symbol). -/
structure FetchMeta where
  source : String
  companyName : String
  ttmEPS : ℚ
  lastFetched : GoTime
  latestDate : String
  earliestDate : String
  deriving Repr, DecidableEq

/-- IsFresh returns true if the symbol was fetched today: it compares the
year and the day-of-year of the fetch timestamp with the current time. -/
def IsFresh (m : FetchMeta) (now : GoTime) : Bool :=
  m.lastFetched.d.year == now.d.year && m.lastFetched.d.yearDay == now.d.yearDay

/-- CoversRange returns true if cached data covers the requested range. -/
def CoversRange (m : FetchMeta) (startDate : String) : Bool :=
  strLe m.earliestDate startDate

/-! ### The daily_prices cache (Cache.GetDailyPrices / Cache.StoreDailyPrices) -/

/-- The WHERE clause of the range query: date >= startDate AND
date <= endDate. -/
def rowInRange (startDate endDate : String) (r : PriceRow) : Bool :=
  strLe startDate r.date && strLe r.date endDate

/-- Insertion into a sorted list. -/
def insertLe {α : Type} (le : α → α → Bool) (x : α) : List α → List α
  | [] => [x]
  | y :: ys => if le x y then x :: y :: ys else y :: insertLe le x ys

/-- Insertion sort: the embedding of the ascending sorts performed by the
code (the ORDER BY date ASC SQL clause, sort.Strings and the sort.Slice by
date).  The lists sorted by the code have pairwise distinct keys, so every
correct ascending sort produces this order. -/
def sortLe {α : Type} (le : α → α → Bool) : List α → List α
  | [] => []
  | x :: xs => insertLe le x (sortLe le xs)

/-- Rows of the queried range in the ORDER BY date ASC order of the SQL
query.  Row dates are unique (primary key), so any sort by date yields the
same list. -/
def rangeRows (tbl : List PriceRow) (startDate endDate : String) : List PriceRow :=
  sortLe (fun a b => strLe a.date b.date) (tbl.filter (rowInRange startDate endDate))

/-- The forward scan of GetDailyPrices: walk the rows oldest to newest,
recomputing Change from the running previous close and HChange from the
running previous high, both left empty while the running value is not yet
positive (in particular on the first row). -/
def deriveWalk : ℚ → ℚ → List PriceRow → List StockData
  | _, _, [] => []
  | prevClose, prevHigh, r :: rs =>
    { Date := r.date, Open := r.openP, High := r.highP, Low := r.lowP,
      Close := r.closeP, Volume := r.volume,
      Change := if 0 < prevClose then
          some ((r.closeP - prevClose) / prevClose * 100) else none,
      HChange := if 0 < prevHigh then
          some ((r.closeP - prevHigh) / prevHigh * 100) else none,
      PE := r.pe } :: deriveWalk r.closeP r.highP rs

/-- GetDailyPrices: read the rows of the range sorted oldest first,
recompute Change and HChange in one forward pass, and return the result
reversed to newest-first. -/
def GetDailyPrices (tbl : List PriceRow) (startDate endDate : String) :
    List StockData :=
  (deriveWalk 0 0 (rangeRows tbl startDate endDate)).reverse

/-- The stored projection of a record: Change and HChange are dropped. -/
def rowOfStockData (d : StockData) : PriceRow :=
  { date := d.Date, openP := d.Open, highP := d.High, lowP := d.Low,
    closeP := d.Close, volume := d.Volume, pe := d.PE }

/-- One INSERT OR REPLACE keyed by date: replace the row carrying this date
if present, append otherwise. -/
def upsertRow (tbl : List PriceRow) (r : PriceRow) : List PriceRow :=
  if tbl.any (fun x => x.date == r.date) then
    tbl.map (fun x => if x.date == r.date then r else x)
  else tbl ++ [r]

/-- StoreDailyPrices: upsert every record of the batch, in order. -/
def StoreDailyPrices (tbl : List PriceRow) (data : List StockData) :
    List PriceRow :=
  data.foldl (fun t d => upsertRow t (rowOfStockData d)) tbl

/-- Last row of a list carrying a given date, if any. -/
def lastRecOn : List PriceRow → String → Option PriceRow
  | [], _ => none
  | r :: rs, d =>
    match lastRecOn rs d with
    | some y => some y
    | none => if r.date = d then some r else none

/-- The in-place replacement applied by an upsert hit. -/
def replOn (r x : PriceRow) : PriceRow := if x.date == r.date then r else x

/-- Sequential replacement by every row of a batch. -/
def chainRepl (rs : List PriceRow) (x : PriceRow) : PriceRow :=
  rs.foldl (fun x r => replOn r x) x

/-- The date column of a table. -/
def tableDates (tbl : List PriceRow) : List String := tbl.map (·.date)

/-- Percentage move of a current value against a previous reference
value. -/
def pctChange (cur prev : ℚ) : ℚ := (cur - prev) / prev * 100

/-- Closed-form description of the read-side derivation: each row of the
queried range is paired with its immediate predecessor within the range
(none for the chronologically first row); Change is the close's move
against the predecessor's close, HChange the close's move against the
predecessor's high. -/
def deriveIndexed (rs : List PriceRow) : List StockData :=
  (rs.zip (none :: rs.map some)).map fun rp =>
    { Date := rp.1.date, Open := rp.1.openP, High := rp.1.highP,
      Low := rp.1.lowP, Close := rp.1.closeP, Volume := rp.1.volume,
      Change := rp.2.map fun p => pctChange rp.1.closeP p.closeP,
      HChange := rp.2.map fun p => pctChange rp.1.closeP p.highP,
      PE := rp.1.pe }

/-! ### Civil-calendar conversions and date formatting

The code derives its date strings and ISO week keys through the Go time
package.  The conversions between calendar dates and day numbers (days
since 1970-01-01, proleptic Gregorian) are embedded below; this development
uses them only computationally. -/

/-- Day number of a calendar date. -/
def daysFromCivil (dt : Date) : Int :=
  let y : Int := if dt.month ≤ 2 then dt.year - 1 else dt.year
  let era : Int := y / 400
  let yoe : Int := y - era * 400
  let mp : Int := (Int.ofNat dt.month + 9) % 12
  let doy : Int := (153 * mp + 2) / 5 + Int.ofNat dt.day - 1
  let doe : Int := yoe * 365 + yoe / 4 - yoe / 100 + doy
  era * 146097 + doe - 719468

/-- Calendar date of a day number. -/
def civilFromDays (z0 : Int) : Date :=
  let z := z0 + 719468
  let era : Int := z / 146097
  let doe : Int := z - era * 146097
  let yoe : Int := (doe - doe / 1460 + doe / 36524 - doe / 146096) / 365
  let y : Int := yoe + era * 400
  let doy : Int := doe - (365 * yoe + yoe / 4 - yoe / 100)
  let mp : Int := (5 * doy + 2) / 153
  let d : Int := doy - (153 * mp + 2) / 5 + 1
  let m : Int := if mp < 10 then mp + 3 else mp - 9
  { year := if m ≤ 2 then y + 1 else y, month := m.toNat, day := d.toNat }

/-- Absolute second count of a time value, the quantity whose differences
Go's time.Since reports. -/
def absSeconds (t : GoTime) : Int := daysFromCivil t.d * 86400 + Int.ofNat t.tod

/-- Decimal digit character. -/
def digitChar (n : Nat) : Char := Char.ofNat (48 + n % 10)

/-- Two-digit zero-padded decimal. -/
def pad2 (n : Nat) : String := String.mk [digitChar (n / 10), digitChar n]

/-- Four-digit zero-padded decimal. -/
def pad4 (n : Nat) : String :=
  String.mk [digitChar (n / 1000), digitChar (n / 100), digitChar (n / 10), digitChar n]

/-- The year as Go's Format layout 2006 renders it (4-digit zero-padded;
the code only meets years in 0..9999). -/
def yearStr4 (y : Int) : String :=
  if y < 0 then "-" ++ pad4 (-y).toNat else pad4 y.toNat

/-- Decimal rendering of an integer, as Go's %d verb. -/
def intRepr (i : Int) : String :=
  match i with
  | .ofNat n => Nat.repr n
  | .negSucc n => "-" ++ Nat.repr (n + 1)

/-- The date in Go layout 2006-01-02. -/
def formatDate (dt : Date) : String :=
  yearStr4 dt.year ++ "-" ++ pad2 dt.month ++ "-" ++ pad2 dt.day

/-- ISO 8601 week (year, week number), as Go's Time.ISOWeek: move to the
Thursday of the calendar week (weeks start Monday) and read off that day's
year and week-of-year. -/
def isoWeek (dt : Date) : Int × Nat :=
  let abs := daysFromCivil dt
  let wd := (abs + 4) % 7
  let delta : Int := if wd == 0 then -3 else 4 - wd
  let th := civilFromDays (abs + delta)
  (th.year, (th.yearDay - 1) / 7 + 1)

/-- Digit test for ASCII characters. -/
def isDigit (c : Char) : Bool := 48 ≤ c.toNat && c.toNat ≤ 57

/-- Value of a digit character. -/
def digVal (c : Char) : Nat := c.toNat - 48

/-- Go's time.Parse with layout 2006-01-02: exactly four digits, a dash,
two digits, a dash, two digits, with the month in 1..12 and the day within
the month's length; anything else is a parse error, embedded as none. -/
def goParseDate (s : String) : Option Date :=
  match s.data with
  | [y1, y2, y3, y4, c1, m1, m2, c2, d1, d2] =>
    if (c1 = '-' && c2 = '-') && (isDigit y1 && isDigit y2 && isDigit y3 && isDigit y4) &&
        (isDigit m1 && isDigit m2 && isDigit d1 && isDigit d2) then
      let y : Int := Int.ofNat
        (digVal y1 * 1000 + digVal y2 * 100 + digVal y3 * 10 + digVal y4)
      let m := digVal m1 * 10 + digVal m2
      let d := digVal d1 * 10 + digVal d2
      if (1 ≤ m && m ≤ 12) && (1 ≤ d && d ≤ daysInMonth (isLeapYear y) m) then
        some { year := y, month := m, day := d }
      else none
    else none
  | _ => none

/-! ### Period aggregation (period.go) -/

/-- The period aggregation granularity.  ParsePeriodType admits exactly
these four values, so the embedding models them as an enumeration. -/
inductive PeriodType
  | weekly
  | monthly
  | quarterly
  | yearly
  deriving Repr, DecidableEq

/-- getPeriodKey returns the grouping key of a date: ISO year-week for
weekly ("%d-W%02d"), Go layout 2006-01 for monthly, "%d-Q%d" for
quarterly, "%d" for yearly. -/
def getPeriodKey (date : Date) (periodType : PeriodType) : String :=
  match periodType with
  | .weekly =>
    let yw := isoWeek date
    intRepr yw.1 ++ "-W" ++ pad2 yw.2
  | .monthly => yearStr4 date.year ++ "-" ++ pad2 date.month
  | .quarterly => intRepr date.year ++ "-Q" ++ Nat.repr ((date.month - 1) / 3 + 1)
  | .yearly => intRepr date.year

/-- The drop-day counts of one bucket: close-based and low-based
(Go struct DropCount). -/
structure DropCount where
  close : Nat
  low : Nat
  deriving Repr, DecidableEq

/-- Aggregated data of one period (Go struct PeriodData).  As in the rest
of the embedding, prices and volumes are the underlying rational values and
Change is none when the code renders the empty string. -/
structure PeriodData where
  Period : String
  StartDate : String
  EndDate : String
  Open : ℚ
  High : ℚ
  Low : ℚ
  Close : ℚ
  Volume : ℚ
  Change : Option ℚ
  PE : String
  Days : Nat
  Drop2Pct : DropCount
  Drop3Pct : DropCount
  Drop4Pct : DropCount
  Drop5Pct : DropCount
  deriving Repr, DecidableEq

/-- The grouping pass of AggregateToPeriods: records whose date parses are
appended to their period's group, keys kept in first-seen order; records
whose date does not parse are skipped. -/
def buildGroups (data : List StockData) (periodType : PeriodType) :
    List (String × List StockData) :=
  data.foldl (fun groups d =>
    match goParseDate d.Date with
    | none => groups
    | some date =>
      let key := getPeriodKey date periodType
      if groups.any (fun g => g.1 == key) then
        groups.map (fun g => if g.1 == key then (g.1, g.2 ++ [d]) else g)
      else groups ++ [(key, [d])]) []

/-- Lookup of a period's member days. -/
def lookupGroup (groups : List (String × List StockData)) (key : String) :
    Option (List StockData) :=
  (groups.find? (fun g => g.1 == key)).map (·.2)

/-- The per-day loop state of the aggregation: running high, low, volume
sum, previous day's close, day index and both drop counter families. -/
structure AggState where
  highVal : ℚ
  lowVal : ℚ
  totalVolume : ℚ
  dayPrevClose : ℚ
  idx : Nat
  dropC : DropCounters
  dropL : DropCounters

/-- One day of the aggregation loop: update high/low/volume, classify the
day against the previous day's close when one is available, and remember
this day's close. -/
def aggStep (st : AggState) (d : StockData) : AggState :=
  let highVal := if st.idx == 0 || decide (st.highVal < d.High) then d.High else st.highVal
  let lowVal := if st.idx == 0 || decide (d.Low < st.lowVal) then d.Low else st.lowVal
  let totalVolume := st.totalVolume + d.Volume
  let dropped :=
    if 0 < st.dayPrevClose then
      let drops := calculateDrops d.Close d.Low st.dayPrevClose
      (incrementDropCount drops.1 st.dropC, incrementDropCount drops.2 st.dropL)
    else (st.dropC, st.dropL)
  { highVal := highVal, lowVal := lowVal, totalVolume := totalVolume,
    dayPrevClose := d.Close, idx := st.idx + 1,
    dropC := dropped.1, dropL := dropped.2 }

/-- The zero-initialised loop state Go declares for every period. -/
def aggInit : AggState :=
  { highVal := 0, lowVal := 0, totalVolume := 0, dayPrevClose := 0, idx := 0,
    dropC := ⟨0, 0, 0, 0⟩, dropL := ⟨0, 0, 0, 0⟩ }

/-- Aggregate one period's member days: sort them by date, run the day
loop from the zero state, and build the period row; the second component
is the period's close, which becomes the next period's reference for the
period-over-period change.  An empty group is skipped (unreachable for
groups built by buildGroups). -/
def aggPeriod (key : String) (prevPeriodClose : ℚ) (days0 : List StockData) :
    Option (PeriodData × ℚ) :=
  match h : sortLe (fun a b => strLe a.Date b.Date) days0 with
  | [] => none
  | firstDay :: rest =>
    let days := firstDay :: rest
    let lastDay := days.getLast (List.cons_ne_nil _ _)
    let st := days.foldl aggStep aggInit
    let closeVal := lastDay.Close
    let change : Option ℚ :=
      if 0 < prevPeriodClose then some (pctChange closeVal prevPeriodClose) else none
    some ({ Period := key, StartDate := firstDay.Date, EndDate := lastDay.Date,
            Open := firstDay.Open, High := st.highVal, Low := st.lowVal,
            Close := lastDay.Close, Volume := st.totalVolume, Change := change,
            PE := lastDay.PE, Days := days.length,
            Drop2Pct := ⟨st.dropC.d2, st.dropL.d2⟩,
            Drop3Pct := ⟨st.dropC.d3, st.dropL.d3⟩,
            Drop4Pct := ⟨st.dropC.d4, st.dropL.d4⟩,
            Drop5Pct := ⟨st.dropC.d5, st.dropL.d5⟩ }, closeVal)

/-- One key of the main aggregation loop: look up the key's member days,
aggregate them against the running previous period close, and append the
period row. -/
def aggFoldStep (grps : List (String × List StockData))
    (acc : List PeriodData × ℚ) (key : String) : List PeriodData × ℚ :=
  match lookupGroup grps key with
  | none => acc
  | some g =>
    match aggPeriod key acc.2 g with
    | none => acc
    | some pc => (acc.1 ++ [pc.1], pc.2)

/-- AggregateToPeriods converts daily stock data (oldest first) into
period aggregates, newest period first. -/
def AggregateToPeriods (data : List StockData) (periodType : PeriodType) :
    List PeriodData :=
  if data.isEmpty then []
  else
    let grps := buildGroups data periodType
    let order := sortLe strLe (grps.map Prod.fst)
    let folded := order.foldl (aggFoldStep grps) (([] : List PeriodData), (0 : ℚ))
    folded.1.reverse

/-- Whether a consecutive (previous, current) day pair is a bucket-b drop
under the given projection of the current day (close-based or
low-based). -/
def pairCond (b : Nat) (proj : StockData → ℚ) (prev cur : StockData) : Bool :=
  decide (0 < prev.Close) && (classifyDropPct (pctChange (proj cur) prev.Close) == b)

/-- Closed-form drop count of a day list: the number of consecutive day
pairs within the list that classify into bucket b.  The first day of the
list is never classified (it has no predecessor in the list). -/
def dropPairCount (b : Nat) (proj : StockData → ℚ) (days : List StockData) : Nat :=
  (days.zip days.tail).countP fun pr => pairCond b proj pr.1 pr.2

/-- The walking drop count: what the loop accrues from a given running
previous close. -/
def walkDropCount (b : Nat) (proj : StockData → ℚ) : ℚ → List StockData → Nat
  | _, [] => 0
  | c, d :: rest =>
    (if 0 < c ∧ classifyDropPct (pctChange (proj d) c) = b then 1 else 0) +
      walkDropCount b proj d.Close rest

/-- The two-day series that separates the claim from the code: Jan 31 and
Feb 1 with a 10 percent close-to-close fall across the month boundary. -/
def cxJan31 : StockData :=
  { Date := "2024-01-31", Open := 100, High := 101, Low := 99, Close := 100,
    Volume := 1, Change := none, HChange := none, PE := "" }

/-- The second day of the boundary series: its close and low both sit more
than 5 percent under the previous day's close. -/
def cxFeb01 : StockData :=
  { Date := "2024-02-01", Open := 95, High := 96, Low := 89, Close := 90,
    Volume := 1, Change := none, HChange := none, PE := "" }

/-- Per-period drop count as the claim states it: classify every
consecutive-day pair of the whole input series, previous close carried
across period boundaries, and attribute the pair to the period containing
its second day. -/
def claimDropCount (b : Nat) (proj : StockData → ℚ) (pt : PeriodType)
    (key : String) (data : List StockData) : Nat :=
  (data.zip data.tail).countP fun pr =>
    pairCond b proj pr.1 pr.2 &&
      (match goParseDate pr.2.Date with
       | some dt => getPeriodKey dt pt == key
       | none => false)

/-! ### The fetch orchestrator (fetchStockData)

The per-symbol cache is a row table plus optional fetch metadata; the
abstract Provider (fetchFromProvider: the macrotrends/yahoo scrapers, an
external collaborator) is a function from the useYahoo flag and the
requested day count to a reply or an error.  The embedding additionally
records the day counts of the provider invocations so that claims about
whether and how the Provider is called are statable. -/

/-- What fetchFromProvider returns on success: the records (newest first),
the TTM EPS, the company name and the includePE flag. -/
structure ProviderReply where
  data : List StockData
  ttmEPS : ℚ
  companyName : String
  includePE : Bool

/-- The cache contents for one symbol. -/
structure CacheState where
  rows : List PriceRow
  meta : Option FetchMeta

/-- Result of the orchestrator: the returned
(records, ttmEPS, companyName, includePE) tuple or the error, the día
counts the Provider was invoked with, and the cache afterwards. -/
structure FetchOutput where
  outcome : Except String (List StockData × ℚ × String × Bool)
  providerCalls : List Int
  cacheAfter : Option CacheState

/-- Whole days elapsed between two times:
int(time.Since(t).Hours()/24), which truncates toward zero. -/
def goDaysSince (now t : GoTime) : Int :=
  Int.tdiv (absSeconds now - absSeconds t) 86400

/-- The start date of the requested range:
time.Now().AddDate(0, 0, -days).Format("2006-01-02"). -/
def requestStartDate (now : GoTime) (days : Int) : String :=
  formatDate (civilFromDays (daysFromCivil now.d - days))

/-- fetchStockData: serve a fresh covered request from the cache; fetch a
bounded delta window when the cache is stale but covers the range; fetch
the full window otherwise; on provider failure degrade to the stale cache
when metadata exists; on success store the records, widen the metadata and
re-read the full range from the cache. -/
def fetchStockData (cache : Option CacheState) (days : Int) (useYahoo : Bool)
    (provider : Bool → Int → Except String ProviderReply) (now : GoTime) :
    FetchOutput :=
  let startDate := requestStartDate now days
  let today := formatDate now.d
  match cache with
  | none =>
    match provider useYahoo days with
    | .error e => { outcome := .error e, providerCalls := [days], cacheAfter := none }
    | .ok r => { outcome := .ok (r.data, r.ttmEPS, r.companyName, r.includePE),
                 providerCalls := [days], cacheAfter := none }
  | some cs =>
    let freshServe : Option (List StockData × ℚ × String × Bool) :=
      match cs.meta with
      | some m =>
        if IsFresh m now && CoversRange m startDate then
          let data := GetDailyPrices cs.rows startDate today
          if data.isEmpty then none
          else some (data, m.ttmEPS, m.companyName, m.source == "macrotrends")
        else none
      | none => none
    match freshServe with
    | some out => { outcome := .ok out, providerCalls := [], cacheAfter := some cs }
    | none =>
      let fetchDays : Int :=
        match cs.meta with
        | some m =>
          if CoversRange m startDate then
            let daysSinceLatest := goDaysSince now m.lastFetched + 5
            if daysSinceLatest < days then daysSinceLatest else days
          else days
        | none => days
      match provider useYahoo fetchDays with
      | .error e =>
        match cs.meta with
        | some m =>
          let staleData := GetDailyPrices cs.rows startDate today
          if staleData.isEmpty then
            { outcome := .error e, providerCalls := [fetchDays], cacheAfter := some cs }
          else
            { outcome := .ok (staleData, m.ttmEPS, m.companyName,
                m.source == "macrotrends"),
              providerCalls := [fetchDays], cacheAfter := some cs }
        | none =>
          { outcome := .error e, providerCalls := [fetchDays], cacheAfter := some cs }
      | .ok r =>
        let cs' : CacheState :=
          match r.data with
          | [] => cs
          | d0 :: drest =>
            let rows' := StoreDailyPrices cs.rows r.data
            let source := if r.includePE then "macrotrends" else "yahoo"
            let earliest0 := ((d0 :: drest).getLast (List.cons_ne_nil _ _)).Date
            let latestDate := d0.Date
            let earliestDate :=
              match cs.meta with
              | some m => if strLt m.earliestDate earliest0 then m.earliestDate
                          else earliest0
              | none => earliest0
            { rows := rows',
              meta := some { source := source, companyName := r.companyName,
                             ttmEPS := r.ttmEPS, lastFetched := now,
                             latestDate := latestDate,
                             earliestDate := earliestDate } }
        let cachedData := GetDailyPrices cs'.rows startDate today
        if cachedData.isEmpty then
          { outcome := .ok (r.data, r.ttmEPS, r.companyName, r.includePE),
            providerCalls := [fetchDays], cacheAfter := some cs' }
        else
          { outcome := .ok (cachedData, r.ttmEPS, r.companyName, r.includePE),
            providerCalls := [fetchDays], cacheAfter := some cs' }

/-- A fresh, covering metadata record for 2024-10-11 whose symbol has no
cached rows. -/
def cxEmptyMeta : FetchMeta :=
  { source := "macrotrends", companyName := "apple", ttmEPS := 7,
    lastFetched := { d := { year := 2024, month := 10, day := 11 }, tod := 3600 },
    latestDate := "2024-10-10", earliestDate := "2020-01-01" }

/-- The current time of the C5 counterexample run, later the same day. -/
def cxNow : GoTime := { d := { year := 2024, month := 10, day := 11 }, tod := 50000 }

/-- The metadata of the C8 witness: fetched 2024-03-01 early in the day. -/
def w8Meta : FetchMeta :=
  { source := "macrotrends", companyName := "apple", ttmEPS := 7,
    lastFetched := { d := { year := 2024, month := 3, day := 1 }, tod := 100 },
    latestDate := "", earliestDate := "" }

/-- The current time of the C8 witness: the same calendar day, late in the
day. -/
def w8Now : GoTime := { d := { year := 2024, month := 3, day := 1 }, tod := 86000 }

/-- A five-row table, two of whose rows sit outside the queried
sub-range. -/
def w2Tbl : List PriceRow :=
  [ { date := "2024-01-05", openP := 150, highP := 155, lowP := 149,
      closeP := 154, volume := 10, pe := "30.00" },
    { date := "2024-01-04", openP := 148, highP := 152, lowP := 147,
      closeP := 150, volume := 8, pe := "29.00" },
    { date := "2024-01-03", openP := 145, highP := 149, lowP := 144,
      closeP := 148, volume := 9, pe := "28.50" },
    { date := "2024-01-02", openP := 143, highP := 146, lowP := 142,
      closeP := 145, volume := 9, pe := "28.00" },
    { date := "2024-01-01", openP := 140, highP := 143, lowP := 139,
      closeP := 142, volume := 9, pe := "27.00" } ]

/-- Metadata last fetched on 2024-10-10, stale by exactly one whole day
relative to staleNow and covering the requested range. -/
def staleMeta : FetchMeta :=
  { source := "macrotrends", companyName := "apple", ttmEPS := 7,
    lastFetched := { d := { year := 2024, month := 10, day := 10 }, tod := 40000 },
    latestDate := "2024-10-10", earliestDate := "2020-01-01" }

/-- The request time of the stale-cache witnesses: the next day. -/
def staleNow : GoTime := { d := { year := 2024, month := 10, day := 11 }, tod := 50000 }

/-- One cached row inside the requested range of the failure witness. -/
def w4Rows : List PriceRow :=
  [ { date := "2024-10-01", openP := 10, highP := 11, lowP := 9, closeP := 10,
      volume := 1, pe := "" } ]

/-! ### Claim C6 -/

/-- The classifier value under each threshold configuration. -/
lemma classifyDropPct_cases (q : ℚ) :
    (0 ≤ q → classifyDropPct q = 0) ∧
    (q < 0 → -q < 2 → classifyDropPct q = 0) ∧
    (q < 0 → 2 ≤ -q → -q < 3 → classifyDropPct q = 2) ∧
    (q < 0 → 3 ≤ -q → -q < 4 → classifyDropPct q = 3) ∧
    (q < 0 → 4 ≤ -q → -q < 5 → classifyDropPct q = 4) ∧
    (q < 0 → 5 ≤ -q → classifyDropPct q = 5) := by
  unfold classifyDropPct
  refine ⟨fun h0 => by rw [if_pos h0], ?_, ?_, ?_, ?_, ?_⟩ <;> intro h0 <;>
    rw [if_neg (not_le.mpr h0)]
  · intro h; rw [if_neg (by linarith), if_neg (by linarith), if_neg (by linarith),
      if_neg (by linarith)]
  · intro h h'; rw [if_neg (by linarith), if_neg (by linarith), if_neg (by linarith),
      if_pos (by linarith)]
  · intro h h'; rw [if_neg (by linarith), if_neg (by linarith), if_pos (by linarith)]
  · intro h h'; rw [if_neg (by linarith), if_pos (by linarith)]
  · intro h; rw [if_pos (by linarith)]

/-- An increment step changes the counter total by at most one. -/
lemma incrementDropCount_total_le (b : Nat) (c : DropCounters) :
    (incrementDropCount b c).total ≤ c.total + 1 := by
  unfold incrementDropCount
  split <;> simp [DropCounters.total] <;> omega

/-- Bucket 0 leaves the counters unchanged. -/
lemma incrementDropCount_zero (c : DropCounters) : incrementDropCount 0 c = c := rfl

/-- C6: the drop classifier assigns no bucket when the percentage change is
non-negative or its absolute value is below 2, and otherwise assigns
exactly one exclusive bucket by absolute value: [2,3) to bucket 2, [3,4) to
bucket 3, [4,5) to bucket 4, and [5,∞) to bucket 5; a single increment
step raises the counter total by at most one (and leaves the counters
unchanged outside a bucket), so each day increments at most one close-based
counter and, independently, at most one low-based counter. -/
theorem classifyDropPct_buckets (q : ℚ) :
    (classifyDropPct q = 0 ↔ (0 ≤ q ∨ -q < 2)) ∧
    (classifyDropPct q = 2 ↔ (q < 0 ∧ 2 ≤ -q ∧ -q < 3)) ∧
    (classifyDropPct q = 3 ↔ (q < 0 ∧ 3 ≤ -q ∧ -q < 4)) ∧
    (classifyDropPct q = 4 ↔ (q < 0 ∧ 4 ≤ -q ∧ -q < 5)) ∧
    (classifyDropPct q = 5 ↔ (q < 0 ∧ 5 ≤ -q)) ∧
    (∀ c : DropCounters,
      (incrementDropCount (classifyDropPct q) c).total ≤ c.total + 1) ∧
    (∀ c : DropCounters, (0 ≤ q ∨ -q < 2) →
      incrementDropCount (classifyDropPct q) c = c) := by
  obtain ⟨e0, e0', e2, e3, e4, e5⟩ := classifyDropPct_cases q
  have tri : 0 ≤ q ∨ (q < 0 ∧ -q < 2) ∨ (q < 0 ∧ 2 ≤ -q ∧ -q < 3) ∨
      (q < 0 ∧ 3 ≤ -q ∧ -q < 4) ∨ (q < 0 ∧ 4 ≤ -q ∧ -q < 5) ∨
      (q < 0 ∧ 5 ≤ -q) := by
    rcases le_or_lt 0 q with h | h
    · exact Or.inl h
    rcases lt_or_le (-q) 2 with h2 | h2
    · exact Or.inr (Or.inl ⟨h, h2⟩)
    rcases lt_or_le (-q) 3 with h3 | h3
    · exact Or.inr (Or.inr (Or.inl ⟨h, h2, h3⟩))
    rcases lt_or_le (-q) 4 with h4 | h4
    · exact Or.inr (Or.inr (Or.inr (Or.inl ⟨h, h3, h4⟩)))
    rcases lt_or_le (-q) 5 with h5 | h5
    · exact Or.inr (Or.inr (Or.inr (Or.inr (Or.inl ⟨h, h4, h5⟩))))
    · exact Or.inr (Or.inr (Or.inr (Or.inr (Or.inr ⟨h, h5⟩))))
  have val : classifyDropPct q = 0 ∧ (0 ≤ q ∨ -q < 2) ∨
      classifyDropPct q = 2 ∧ (q < 0 ∧ 2 ≤ -q ∧ -q < 3) ∨
      classifyDropPct q = 3 ∧ (q < 0 ∧ 3 ≤ -q ∧ -q < 4) ∨
      classifyDropPct q = 4 ∧ (q < 0 ∧ 4 ≤ -q ∧ -q < 5) ∨
      classifyDropPct q = 5 ∧ (q < 0 ∧ 5 ≤ -q) := by
    rcases tri with h | ⟨h, h'⟩ | ⟨h, h'⟩ | ⟨h, h'⟩ | ⟨h, h'⟩ | ⟨h, h'⟩
    · exact Or.inl ⟨e0 h, Or.inl h⟩
    · exact Or.inl ⟨e0' h h', Or.inr h'⟩
    · exact Or.inr (Or.inl ⟨e2 h h'.1 h'.2, h, h'⟩)
    · exact Or.inr (Or.inr (Or.inl ⟨e3 h h'.1 h'.2, h, h'⟩))
    · exact Or.inr (Or.inr (Or.inr (Or.inl ⟨e4 h h'.1 h'.2, h, h'⟩)))
    · exact Or.inr (Or.inr (Or.inr (Or.inr ⟨e5 h h', h, h'⟩)))
  refine ⟨?_, ?_, ?_, ?_, ?_,
      fun c => incrementDropCount_total_le _ c, ?_⟩
  · constructor
    · intro h
      rcases val with ⟨hv, hc⟩ | ⟨hv, _⟩ | ⟨hv, _⟩ | ⟨hv, _⟩ | ⟨hv, _⟩ <;>
        first | exact hc | omega
    · rintro (h | h)
      · exact e0 h
      · rcases lt_or_le q 0 with hq | hq
        · exact e0' hq h
        · exact e0 hq
  · constructor
    · intro h
      rcases val with ⟨hv, _⟩ | ⟨hv, hc⟩ | ⟨hv, _⟩ | ⟨hv, _⟩ | ⟨hv, _⟩ <;>
        first | exact hc | omega
    · rintro ⟨h, h', h''⟩; exact e2 h h' h''
  · constructor
    · intro h
      rcases val with ⟨hv, _⟩ | ⟨hv, _⟩ | ⟨hv, hc⟩ | ⟨hv, _⟩ | ⟨hv, _⟩ <;>
        first | exact hc | omega
    · rintro ⟨h, h', h''⟩; exact e3 h h' h''
  · constructor
    · intro h
      rcases val with ⟨hv, _⟩ | ⟨hv, _⟩ | ⟨hv, _⟩ | ⟨hv, hc⟩ | ⟨hv, _⟩ <;>
        first | exact hc | omega
    · rintro ⟨h, h', h''⟩; exact e4 h h' h''
  · constructor
    · intro h
      rcases val with ⟨hv, _⟩ | ⟨hv, _⟩ | ⟨hv, _⟩ | ⟨hv, _⟩ | ⟨hv, hc⟩ <;>
        first | exact hc | omega
    · rintro ⟨h, h'⟩; exact e5 h h'
  · intro c hc
    have h0 : classifyDropPct q = 0 := by
      rcases hc with h | h
      · exact e0 h
      · rcases lt_or_le q 0 with hq | hq
        · exact e0' hq h
        · exact e0 hq
    rw [h0]
    exact incrementDropCount_zero c

/-! ### Claim C8 -/

/-- Within any month, the year day grows with the day of month. -/
lemma yearDayOf_mono_day (leap : Bool) (m : Nat) {d d' : Nat} (h : d ≤ d') :
    yearDayOf leap m d ≤ yearDayOf leap m d' := by
  unfold yearDayOf; omega

/-- Crossing to the next month from the last day advances the year day
by one. -/
lemma yearDayOf_step (leap : Bool) :
    ∀ m < 12, 1 ≤ m →
      yearDayOf leap m (daysInMonth leap m) + 1 = yearDayOf leap (m + 1) 1 := by
  cases leap <;> decide

/-- The first-of-month year day is monotone in the month. -/
lemma yearDayOf_mono_month (leap : Bool) :
    ∀ a < 13, ∀ b < 13, 1 ≤ a → a ≤ b → yearDayOf leap a 1 ≤ yearDayOf leap b 1 := by
  cases leap <;> decide

/-- Strictly earlier months give strictly smaller year days on valid days,
hence year days never collide across months. -/
lemma yearDayOf_lt_of_month_lt (leap : Bool) {m1 d1 m2 d2 : Nat}
    (hm2 : m2 ≤ 12) (hd1 : d1 ≤ daysInMonth leap m1) (hd2 : 1 ≤ d2)
    (hm1 : 1 ≤ m1) (hlt : m1 < m2) :
    yearDayOf leap m1 d1 < yearDayOf leap m2 d2 := by
  have h1 : yearDayOf leap m1 d1 ≤ yearDayOf leap m1 (daysInMonth leap m1) :=
    yearDayOf_mono_day leap m1 hd1
  have h2 : yearDayOf leap m1 (daysInMonth leap m1) + 1 = yearDayOf leap (m1 + 1) 1 :=
    yearDayOf_step leap m1 (by omega) hm1
  have h3 : yearDayOf leap (m1 + 1) 1 ≤ yearDayOf leap m2 1 :=
    yearDayOf_mono_month leap (m1 + 1) (by omega) m2 (by omega) (by omega) (by omega)
  have h4 : yearDayOf leap m2 1 ≤ yearDayOf leap m2 d2 :=
    yearDayOf_mono_day leap m2 hd2
  omega

/-- The year day determines the month and the day of month on valid
dates. -/
lemma yearDayOf_inj (leap : Bool) {m1 d1 m2 d2 : Nat}
    (hm1 : 1 ≤ m1) (hm1' : m1 ≤ 12) (hd1 : 1 ≤ d1) (hd1' : d1 ≤ daysInMonth leap m1)
    (hm2 : 1 ≤ m2) (hm2' : m2 ≤ 12) (hd2 : 1 ≤ d2) (hd2' : d2 ≤ daysInMonth leap m2)
    (h : yearDayOf leap m1 d1 = yearDayOf leap m2 d2) : m1 = m2 ∧ d1 = d2 := by
  rcases Nat.lt_trichotomy m1 m2 with hlt | heq | hgt
  · exact absurd h (Nat.ne_of_lt (yearDayOf_lt_of_month_lt leap hm2' hd1' hd2 hm1 hlt))
  · subst heq
    refine ⟨rfl, ?_⟩
    unfold yearDayOf at h
    omega
  · exact absurd h.symm
      (Nat.ne_of_lt (yearDayOf_lt_of_month_lt leap hm1' hd2' hd1 hm2 hgt))

/-- C8: IsFresh returns true if and only if the last-fetched timestamp
falls on the same calendar day as the current time, and it does not depend
on the time of day of either timestamp. -/
theorem IsFresh_iff_same_calendar_day (m : FetchMeta) (now : GoTime)
    (h1 : m.lastFetched.d.validB = true) (h2 : now.d.validB = true) :
    (IsFresh m now = true ↔ m.lastFetched.d = now.d) ∧
    (∀ a b : Nat,
      IsFresh { m with lastFetched := { m.lastFetched with tod := a } }
        { now with tod := b } = IsFresh m now) := by
  constructor
  · unfold IsFresh Date.yearDay
    simp only [Bool.and_eq_true, beq_iff_eq]
    constructor
    · rintro ⟨hy, hyd⟩
      have hleap : isLeapYear m.lastFetched.d.year = isLeapYear now.d.year := by rw [hy]
      rw [hleap] at hyd
      unfold Date.validB at h1 h2
      simp only [Bool.and_eq_true, decide_eq_true_eq] at h1 h2
      obtain ⟨⟨⟨hm1, hm1'⟩, hd1⟩, hd1'⟩ := h1
      obtain ⟨⟨⟨hm2, hm2'⟩, hd2⟩, hd2'⟩ := h2
      obtain ⟨hmm, hdd⟩ :=
        yearDayOf_inj (isLeapYear now.d.year) hm1 hm1' hd1 (hleap ▸ hd1')
          hm2 hm2' hd2 hd2' hyd
      have hmk : m.lastFetched.d =
          ⟨m.lastFetched.d.year, m.lastFetched.d.month, m.lastFetched.d.day⟩ := rfl
      rw [hmk, hy, hmm, hdd]
    · intro h
      rw [h]
      exact ⟨rfl, rfl⟩
  · intro a b
    rfl

/-! ### Claim C9 -/

/-- C9: CoversRange holds exactly when the requested start date is at or
after the earliest cached date (byte-wise date comparison, which on
ISO dates is chronological); the boundary case of equality counts as
covered. -/
theorem CoversRange_iff (m : FetchMeta) (startDate : String) :
    (CoversRange m startDate = true ↔
      (strLt m.earliestDate startDate = true ∨ startDate = m.earliestDate)) ∧
    CoversRange m m.earliestDate = true := by
  constructor
  · unfold CoversRange strLe
    simp only [Bool.or_eq_true, beq_iff_eq]
    constructor
    · rintro (h | h)
      · exact Or.inl h
      · exact Or.inr h.symm
    · rintro (h | h)
      · exact Or.inl h
      · exact Or.inr h.symm
  · unfold CoversRange strLe
    simp

/-! ### Claim C7 -/

lemma replOn_date (r x : PriceRow) : (replOn r x).date = x.date := by
  unfold replOn
  split
  · next h => exact (beq_iff_eq.mp h).symm
  · rfl

lemma tableDates_map_repl (tbl : List PriceRow) (r : PriceRow) :
    tableDates (tbl.map (fun x => if x.date == r.date then r else x)) =
      tableDates tbl := by
  unfold tableDates
  rw [List.map_map]
  exact List.map_congr_left fun x _ => replOn_date r x

lemma tableDates_upsert_subset (tbl : List PriceRow) (r : PriceRow) :
    ∀ d ∈ tableDates tbl, d ∈ tableDates (upsertRow tbl r) := by
  intro d hd
  unfold upsertRow
  split
  · rw [tableDates_map_repl]; exact hd
  · unfold tableDates at hd ⊢
    simp only [List.map_append, List.mem_append]
    exact Or.inl hd

lemma tableDates_upsert_self (tbl : List PriceRow) (r : PriceRow) :
    r.date ∈ tableDates (upsertRow tbl r) := by
  unfold upsertRow
  split
  · next h =>
    rw [tableDates_map_repl]
    simp only [List.any_eq_true, beq_iff_eq] at h
    obtain ⟨x, hx, hxd⟩ := h
    unfold tableDates
    rw [← hxd]
    exact List.mem_map_of_mem _ hx
  · unfold tableDates
    simp

lemma tableDates_store_subset (data : List StockData) :
    ∀ (tbl : List PriceRow), ∀ d ∈ tableDates tbl,
      d ∈ tableDates (StoreDailyPrices tbl data) := by
  induction data with
  | nil => intro tbl d hd; exact hd
  | cons a l ih =>
    intro tbl d hd
    exact ih (upsertRow tbl (rowOfStockData a)) d
      (tableDates_upsert_subset tbl (rowOfStockData a) d hd)

lemma tableDates_store_mem (data : List StockData) :
    ∀ (tbl : List PriceRow), ∀ a ∈ data,
      (rowOfStockData a).date ∈ tableDates (StoreDailyPrices tbl data) := by
  induction data with
  | nil => intro tbl a ha; cases ha
  | cons b l ih =>
    intro tbl a ha
    rcases List.mem_cons.mp ha with rfl | ha
    · exact tableDates_store_subset l (upsertRow tbl (rowOfStockData a)) _
        (tableDates_upsert_self tbl (rowOfStockData a))
    · exact ih (upsertRow tbl (rowOfStockData b)) a ha

/-- When every date of the batch is already present, storing is a pure
in-place rewrite of the table. -/
lemma store_eq_map_of_mem (data : List StockData) :
    ∀ (tbl : List PriceRow),
      (∀ a ∈ data, (rowOfStockData a).date ∈ tableDates tbl) →
      StoreDailyPrices tbl data =
        tbl.map (chainRepl (data.map rowOfStockData)) := by
  induction data with
  | nil =>
    intro tbl _
    show tbl = tbl.map (fun x => x)
    rw [List.map_id']
  | cons a l ih =>
    intro tbl h
    have ha : (rowOfStockData a).date ∈ tableDates tbl := h a (List.mem_cons_self a l)
    have hcase : tbl.any (fun x => x.date == (rowOfStockData a).date) = true := by
      simp only [List.any_eq_true, beq_iff_eq]
      unfold tableDates at ha
      obtain ⟨x, hx, hxd⟩ := List.mem_map.mp ha
      exact ⟨x, hx, hxd⟩
    have hup : upsertRow tbl (rowOfStockData a) =
        tbl.map (fun x => if x.date == (rowOfStockData a).date then rowOfStockData a else x) := by
      unfold upsertRow
      rw [if_pos hcase]
    show StoreDailyPrices (upsertRow tbl (rowOfStockData a)) l = _
    rw [hup]
    rw [ih (tbl.map (fun x => if x.date == (rowOfStockData a).date then rowOfStockData a else x))
      (by
        intro b hb
        have := h b (List.mem_cons_of_mem a hb)
        have hdates : tableDates (tbl.map
            (fun x => if x.date == (rowOfStockData a).date then rowOfStockData a else x)) =
            tableDates tbl := tableDates_map_repl tbl (rowOfStockData a)
        rw [hdates]
        exact this)]
    rw [List.map_map]
    rfl

/-- Rows surviving a store whose date never occurs in the batch were
already in the table. -/
lemma mem_table_of_store_of_not_mem (data : List StockData) :
    ∀ (tbl : List PriceRow) (x : PriceRow),
      x ∈ StoreDailyPrices tbl data →
      (∀ a ∈ data, (rowOfStockData a).date ≠ x.date) → x ∈ tbl := by
  induction data with
  | nil => intro tbl x hx _; exact hx
  | cons a l ih =>
    intro tbl x hx hne
    have hx' : x ∈ upsertRow tbl (rowOfStockData a) :=
      ih (upsertRow tbl (rowOfStockData a)) x hx
        (fun b hb => hne b (List.mem_cons_of_mem a hb))
    have hna : (rowOfStockData a).date ≠ x.date := hne a (List.mem_cons_self a l)
    unfold upsertRow at hx'
    split at hx'
    · obtain ⟨x0, hx0, hx0e⟩ := List.mem_map.mp hx'
      by_cases hd : x0.date == (rowOfStockData a).date
      · rw [if_pos hd] at hx0e
        exact absurd (by rw [← hx0e]) hna
      · rw [if_neg hd] at hx0e
        exact hx0e ▸ hx0
    · rcases List.mem_append.mp hx' with hx'' | hx''
      · exact hx''
      · have : x = rowOfStockData a := List.mem_singleton.mp hx''
        exact absurd (by rw [this]) hna

lemma lastRecOn_cons (r : PriceRow) (rs : List PriceRow) (d : String) :
    lastRecOn (r :: rs) d =
      match lastRecOn rs d with
      | some y => some y
      | none => if r.date = d then some r else none := rfl

lemma lastRecOn_none (rs : List PriceRow) (d : String)
    (h : lastRecOn rs d = none) : ∀ r ∈ rs, r.date ≠ d := by
  induction rs with
  | nil => intro r hr; cases hr
  | cons a l ih =>
    intro r hr
    unfold lastRecOn at h
    rcases hl : lastRecOn l d with _ | y
    · rw [hl] at h
      simp only at h
      rcases List.mem_cons.mp hr with rfl | hr'
      · intro hd
        rw [if_pos hd] at h
        cases h
      · exact ih hl r hr'
    · rw [hl] at h
      cases h

/-- Every row of a stored table whose date occurs in the batch equals the
last batch record with that date. -/
lemma store_val (data : List StockData) :
    ∀ (tbl : List PriceRow) (x : PriceRow), x ∈ StoreDailyPrices tbl data →
      ∀ y, lastRecOn (data.map rowOfStockData) x.date = some y → x = y := by
  induction data with
  | nil => intro tbl x _ y hy; cases hy
  | cons a l ih =>
    intro tbl x hx y hy
    rw [List.map_cons, lastRecOn_cons] at hy
    rcases hl : lastRecOn (l.map rowOfStockData) x.date with _ | z
    · rw [hl] at hy
      simp only at hy
      by_cases hd : (rowOfStockData a).date = x.date
      · rw [if_pos hd] at hy
        have hxup : x ∈ upsertRow tbl (rowOfStockData a) :=
          mem_table_of_store_of_not_mem l (upsertRow tbl (rowOfStockData a)) x hx
            (by
              intro b hb hbd
              exact lastRecOn_none _ _ hl (rowOfStockData b)
                (List.mem_map_of_mem _ hb) hbd)
        have hxa : x = rowOfStockData a := by
          unfold upsertRow at hxup
          split at hxup
          · obtain ⟨x0, hx0, hx0e⟩ := List.mem_map.mp hxup
            by_cases hdd : x0.date == (rowOfStockData a).date
            · rw [if_pos hdd] at hx0e
              exact hx0e.symm
            · rw [if_neg hdd] at hx0e
              exfalso
              apply hdd
              rw [beq_iff_eq, hx0e, hd]
          · next hany =>
            rcases List.mem_append.mp hxup with hx'' | hx''
            · exfalso
              apply hany
              simp only [List.any_eq_true, beq_iff_eq]
              exact ⟨x, hx'', hd.symm⟩
            · exact List.mem_singleton.mp hx''
        cases hy
        exact hxa
      · rw [if_neg hd] at hy
        cases hy
    · rw [hl] at hy
      cases hy
      exact ih (upsertRow tbl (rowOfStockData a)) x hx y hl

/-- The chained replacement evaluates to the last batch row with the
matching date, or leaves the row alone. -/
lemma chainRepl_eval (rs : List PriceRow) :
    ∀ x : PriceRow, chainRepl rs x =
      match lastRecOn rs x.date with
      | some y => y
      | none => x := by
  induction rs with
  | nil => intro x; rfl
  | cons a l ih =>
    intro x
    show chainRepl l (replOn a x) = _
    rw [ih (replOn a x), lastRecOn_cons]
    by_cases hd : x.date = a.date
    · have hrepl : replOn a x = a := by unfold replOn; rw [if_pos (beq_iff_eq.mpr hd)]
      rw [hrepl]
      have hdate : a.date = x.date := hd.symm
      rw [hdate]
      rcases hl : lastRecOn l x.date with _ | y
      · simp
      · rfl
    · have hrepl : replOn a x = x := by
        unfold replOn
        rw [if_neg (by simpa using hd)]
      rw [hrepl]
      rcases hl : lastRecOn l x.date with _ | y
      · simp only
        rw [if_neg (fun h => hd h.symm)]
      · rfl

/-- C7: storing the same record batch twice is idempotent: the table is
unchanged, and hence GetDailyPrices gives the same output for every query
range as after storing once. -/
theorem StoreDailyPrices_idempotent (tbl : List PriceRow) (data : List StockData) :
    StoreDailyPrices (StoreDailyPrices tbl data) data = StoreDailyPrices tbl data ∧
    ∀ startDate endDate : String,
      GetDailyPrices (StoreDailyPrices (StoreDailyPrices tbl data) data)
          startDate endDate =
        GetDailyPrices (StoreDailyPrices tbl data) startDate endDate := by
  have hmem : ∀ a ∈ data,
      (rowOfStockData a).date ∈ tableDates (StoreDailyPrices tbl data) :=
    fun a ha => tableDates_store_mem data tbl a ha
  have htbl : StoreDailyPrices (StoreDailyPrices tbl data) data =
      StoreDailyPrices tbl data := by
    rw [store_eq_map_of_mem data (StoreDailyPrices tbl data) hmem]
    have hid : ∀ x ∈ StoreDailyPrices tbl data,
        chainRepl (data.map rowOfStockData) x = x := by
      intro x hx
      rw [chainRepl_eval]
      rcases hl : lastRecOn (data.map rowOfStockData) x.date with _ | y
      · rfl
      · exact (store_val data tbl x hx y hl).symm
    calc (StoreDailyPrices tbl data).map (chainRepl (data.map rowOfStockData))
        = (StoreDailyPrices tbl data).map (fun x => x) :=
          List.map_congr_left hid
      _ = StoreDailyPrices tbl data := List.map_id' _
  exact ⟨htbl, fun s e => by rw [htbl]⟩

/-! ### Claim C2 -/

lemma deriveWalk_pos (rs : List PriceRow)
    (hpos : ∀ r ∈ rs, 0 < r.closeP ∧ 0 < r.highP) :
    ∀ p : PriceRow, 0 < p.closeP → 0 < p.highP →
      deriveWalk p.closeP p.highP rs =
        (rs.zip (some p :: rs.map some)).map fun rp =>
          { Date := rp.1.date, Open := rp.1.openP, High := rp.1.highP,
            Low := rp.1.lowP, Close := rp.1.closeP, Volume := rp.1.volume,
            Change := rp.2.map fun q => pctChange rp.1.closeP q.closeP,
            HChange := rp.2.map fun q => pctChange rp.1.closeP q.highP,
            PE := rp.1.pe } := by
  induction rs with
  | nil => intro p _ _; rfl
  | cons r rs' ih =>
    intro p hp hph
    have hr := hpos r (List.mem_cons_self r rs')
    show deriveWalk p.closeP p.highP (r :: rs') = _
    unfold deriveWalk
    rw [if_pos hp, if_pos hph,
      ih (fun x hx => hpos x (List.mem_cons_of_mem r hx)) r hr.1 hr.2]
    rfl

lemma deriveWalk_zero (rs : List PriceRow)
    (hpos : ∀ r ∈ rs, 0 < r.closeP ∧ 0 < r.highP) :
    deriveWalk 0 0 rs = deriveIndexed rs := by
  cases rs with
  | nil => rfl
  | cons r rs' =>
    have hr := hpos r (List.mem_cons_self r rs')
    show deriveWalk 0 0 (r :: rs') = _
    unfold deriveWalk
    rw [deriveWalk_pos rs' (fun x hx => hpos x (List.mem_cons_of_mem r hx)) r hr.1 hr.2]
    rfl

/-- C2: on a cached daily history whose rows in the queried range carry
positive closes and highs, GetDailyPrices walks the rows of the queried
range oldest to newest carrying the previous row's close and high: the
chronologically first row of the range has empty Change and HChange even
when older rows sit in the cache outside the range, every later row's
Change is (close - prevClose)/prevClose*100 and its HChange is
(close - prevHigh)/prevHigh*100 with prevHigh the previous day's high, and
the result is returned newest-first. -/
theorem GetDailyPrices_closed_form (tbl : List PriceRow) (startDate endDate : String)
    (hpos : ∀ r ∈ rangeRows tbl startDate endDate, 0 < r.closeP ∧ 0 < r.highP) :
    GetDailyPrices tbl startDate endDate =
      (deriveIndexed (rangeRows tbl startDate endDate)).reverse ∧
    (GetDailyPrices tbl startDate endDate).getLast?.map
        (fun d => (d.Change, d.HChange)) =
      (rangeRows tbl startDate endDate).head?.map
        (fun _ => ((none : Option ℚ), (none : Option ℚ))) := by
  have hmain : GetDailyPrices tbl startDate endDate =
      (deriveIndexed (rangeRows tbl startDate endDate)).reverse := by
    unfold GetDailyPrices
    rw [deriveWalk_zero _ hpos]
  refine ⟨hmain, ?_⟩
  rw [hmain, List.getLast?_reverse]
  cases hrs : rangeRows tbl startDate endDate with
  | nil => rfl
  | cons r rs' =>
    unfold deriveIndexed
    simp only [List.map_cons, List.zip_cons_cons, List.head?_cons, Option.map_some']
    rfl

/-! ### Claim C10 -/

/-- Folding over a filtered list equals folding over the whole list when
the step ignores the filtered-out elements. -/
lemma foldl_filter_skip {α β : Type} (f : β → α → β) (p : α → Bool)
    (h : ∀ acc a, p a = false → f acc a = acc) :
    ∀ (l : List α) (acc : β), (l.filter p).foldl f acc = l.foldl f acc := by
  intro l
  induction l with
  | nil => intro acc; rfl
  | cons a t ih =>
    intro acc
    by_cases hp : p a = true
    · rw [List.filter_cons_of_pos hp]
      exact ih (f acc a)
    · have hp' : p a = false := by
        cases hpa : p a
        · rfl
        · exact absurd hpa hp
      rw [List.filter_cons_of_neg (by rw [hp']; exact Bool.false_ne_true)]
      show (t.filter p).foldl f acc = t.foldl f (f acc a)
      rw [h acc a hp', ih acc]

/-- Grouping ignores records whose dates do not parse. -/
lemma buildGroups_filter (data : List StockData) (pt : PeriodType) :
    buildGroups (data.filter fun d => (goParseDate d.Date).isSome) pt =
      buildGroups data pt := by
  unfold buildGroups
  apply foldl_filter_skip
  intro acc d hd
  have : goParseDate d.Date = none := by
    cases hp : goParseDate d.Date
    · rfl
    · rw [hp] at hd
      cases hd
  rw [this]

/-- C10: AggregateToPeriods is a total function (the Go signature has no
error return): the empty series yields the empty aggregate, and a record
whose Date does not parse as a 2006-01-02 date is silently skipped: the
output over any series equals the output over the sub-series of records
with parseable dates, so an unparseable record joins no period, feeds no
aggregate or drop counter, and is not counted in any period's Days. -/
theorem AggregateToPeriods_skips_unparseable :
    (∀ pt : PeriodType, AggregateToPeriods [] pt = []) ∧
    (∀ (data : List StockData) (pt : PeriodType),
      AggregateToPeriods data pt =
        AggregateToPeriods (data.filter fun d => (goParseDate d.Date).isSome) pt) := by
  constructor
  · intro pt; rfl
  · intro data pt
    unfold AggregateToPeriods
    by_cases hde : data.isEmpty
    · have : data = [] := by
        cases data
        · rfl
        · cases hde
      subst this
      rfl
    · rw [if_neg hde]
      by_cases hfe : (data.filter fun d => (goParseDate d.Date).isSome).isEmpty
      · rw [if_pos hfe]
        have hfnil : data.filter (fun d => (goParseDate d.Date).isSome) = [] :=
          List.isEmpty_iff.mp hfe
        have hgrps : buildGroups data pt = [] := by
          rw [← buildGroups_filter data pt, hfnil]
          rfl
        simp only [hgrps]
        rfl
      · rw [if_neg hfe, buildGroups_filter data pt]

/-! ### Claim C1 -/

lemma calculateDrops_pos (closeV lowV prevClose : ℚ) (h : 0 < prevClose) :
    calculateDrops closeV lowV prevClose =
      (classifyDropPct (pctChange closeV prevClose),
       classifyDropPct (pctChange lowV prevClose)) := by
  unfold calculateDrops pctChange
  rw [if_neg (not_le.mpr h)]

lemma aggStep_dropC (st : AggState) (d : StockData) :
    (aggStep st d).dropC =
      if 0 < st.dayPrevClose then
        incrementDropCount (classifyDropPct (pctChange d.Close st.dayPrevClose)) st.dropC
      else st.dropC := by
  unfold aggStep
  by_cases hc : 0 < st.dayPrevClose
  · simp only [if_pos hc, calculateDrops_pos _ _ _ hc]
  · simp only [if_neg hc]

lemma aggStep_dropL (st : AggState) (d : StockData) :
    (aggStep st d).dropL =
      if 0 < st.dayPrevClose then
        incrementDropCount (classifyDropPct (pctChange d.Low st.dayPrevClose)) st.dropL
      else st.dropL := by
  unfold aggStep
  by_cases hc : 0 < st.dayPrevClose
  · simp only [if_pos hc, calculateDrops_pos _ _ _ hc]
  · simp only [if_neg hc]

lemma incrementDropCount_d2 (k : Nat) (c : DropCounters) :
    (incrementDropCount k c).d2 = c.d2 + (if k = 2 then 1 else 0) := by
  match k with
  | 0 => rfl
  | 1 => rfl
  | 2 => rfl
  | 3 => rfl
  | 4 => rfl
  | 5 => rfl
  | (n + 6) => simp [incrementDropCount]

lemma incrementDropCount_d3 (k : Nat) (c : DropCounters) :
    (incrementDropCount k c).d3 = c.d3 + (if k = 3 then 1 else 0) := by
  match k with
  | 0 => rfl
  | 1 => rfl
  | 2 => rfl
  | 3 => rfl
  | 4 => rfl
  | 5 => rfl
  | (n + 6) => simp [incrementDropCount]

lemma incrementDropCount_d4 (k : Nat) (c : DropCounters) :
    (incrementDropCount k c).d4 = c.d4 + (if k = 4 then 1 else 0) := by
  match k with
  | 0 => rfl
  | 1 => rfl
  | 2 => rfl
  | 3 => rfl
  | 4 => rfl
  | 5 => rfl
  | (n + 6) => simp [incrementDropCount]

lemma incrementDropCount_d5 (k : Nat) (c : DropCounters) :
    (incrementDropCount k c).d5 = c.d5 + (if k = 5 then 1 else 0) := by
  match k with
  | 0 => rfl
  | 1 => rfl
  | 2 => rfl
  | 3 => rfl
  | 4 => rfl
  | 5 => rfl
  | (n + 6) => simp [incrementDropCount]

/-- The master fold lemma: any drop counter of the loop state grows by the
walking drop count of the processed days, starting from the state's
running previous close. -/
lemma foldl_aggStep_drop (b : Nat) (proj : StockData → ℚ)
    (famSel : AggState → DropCounters) (sel : DropCounters → Nat)
    (hfam : ∀ st d, famSel (aggStep st d) =
      if 0 < st.dayPrevClose then
        incrementDropCount (classifyDropPct (pctChange (proj d) st.dayPrevClose))
          (famSel st)
      else famSel st)
    (hsel : ∀ k c, sel (incrementDropCount k c) = sel c + (if k = b then 1 else 0)) :
    ∀ (days : List StockData) (st : AggState),
      sel (famSel (days.foldl aggStep st)) =
        sel (famSel st) + walkDropCount b proj st.dayPrevClose days := by
  intro days
  induction days with
  | nil => intro st; rfl
  | cons d rest ih =>
    intro st
    show sel (famSel (rest.foldl aggStep (aggStep st d))) = _
    rw [ih (aggStep st d)]
    have hprev : (aggStep st d).dayPrevClose = d.Close := rfl
    rw [hprev, hfam st d]
    show _ = sel (famSel st) +
      ((if 0 < st.dayPrevClose ∧
          classifyDropPct (pctChange (proj d) st.dayPrevClose) = b then 1 else 0) +
        walkDropCount b proj d.Close rest)
    by_cases hc : 0 < st.dayPrevClose
    · rw [if_pos hc, hsel]
      by_cases hb : classifyDropPct (pctChange (proj d) st.dayPrevClose) = b
      · rw [if_pos hb, if_pos ⟨hc, hb⟩]
        omega
      · rw [if_neg hb, if_neg (fun h => hb h.2)]
        omega
    · rw [if_neg hc, if_neg (fun h => hc h.1)]
      omega

/-- The walking count started at an actual previous day equals the pair
count over the list extended with that day in front. -/
lemma walkDropCount_eq_pairs (b : Nat) (proj : StockData → ℚ) :
    ∀ (rest : List StockData) (prev : StockData),
      walkDropCount b proj prev.Close rest =
        ((prev :: rest).zip rest).countP fun pr => pairCond b proj pr.1 pr.2 := by
  intro rest
  induction rest with
  | nil => intro prev; rfl
  | cons r rest' ih =>
    intro prev
    show (if 0 < prev.Close ∧ classifyDropPct (pctChange (proj r) prev.Close) = b
        then 1 else 0) + walkDropCount b proj r.Close rest' = _
    rw [List.zip_cons_cons, List.countP_cons, ih r]
    dsimp only
    have hiff : (0 < prev.Close ∧
        classifyDropPct (pctChange (proj r) prev.Close) = b) ↔
        (pairCond b proj prev r = true) := by
      unfold pairCond
      simp [decide_eq_true_eq]
    rw [if_congr hiff rfl rfl]
    omega

/-- Started from a zero previous close, the walking count is exactly the
pair count: the first day is classified against nothing. -/
lemma walkDropCount_zero (b : Nat) (proj : StockData → ℚ) (days : List StockData) :
    walkDropCount b proj 0 days = dropPairCount b proj days := by
  cases days with
  | nil => rfl
  | cons d rest =>
    show (if 0 < (0 : ℚ) ∧ _ then 1 else 0) + walkDropCount b proj d.Close rest = _
    rw [if_neg (fun h => absurd h.1 (lt_irrefl 0)), walkDropCount_eq_pairs b proj rest d,
      Nat.zero_add]
    rfl

/-- Every period produced by aggPeriod reports exactly the within-period
pair counts as its drop buckets, and its Days is its member count. -/
lemma aggPeriod_drop_fields (key : String) (pc : ℚ) (days0 : List StockData)
    (p : PeriodData) (c' : ℚ) (h : aggPeriod key pc days0 = some (p, c')) :
    p.Period = key ∧
    (let days := sortLe (fun a b => strLe a.Date b.Date) days0
     p.Days = days.length ∧
     p.Drop2Pct = ⟨dropPairCount 2 (fun d => d.Close) days,
                   dropPairCount 2 (fun d => d.Low) days⟩ ∧
     p.Drop3Pct = ⟨dropPairCount 3 (fun d => d.Close) days,
                   dropPairCount 3 (fun d => d.Low) days⟩ ∧
     p.Drop4Pct = ⟨dropPairCount 4 (fun d => d.Close) days,
                   dropPairCount 4 (fun d => d.Low) days⟩ ∧
     p.Drop5Pct = ⟨dropPairCount 5 (fun d => d.Close) days,
                   dropPairCount 5 (fun d => d.Low) days⟩) := by
  unfold aggPeriod at h
  split at h
  · cases h
  · next firstDay rest hsort =>
    simp only [Option.some.injEq, Prod.mk.injEq] at h
    obtain ⟨hp, hc⟩ := h
    have hC2 : (((firstDay :: rest).foldl aggStep aggInit).dropC).d2 =
        dropPairCount 2 (fun d => d.Close) (firstDay :: rest) := by
      rw [foldl_aggStep_drop 2 (fun d => d.Close) (fun st => st.dropC)
        (fun c => c.d2) (fun st d => aggStep_dropC st d) incrementDropCount_d2
        (firstDay :: rest) aggInit]
      rw [show aggInit.dayPrevClose = 0 from rfl, walkDropCount_zero]
      simp [aggInit]
    have hC3 : (((firstDay :: rest).foldl aggStep aggInit).dropC).d3 =
        dropPairCount 3 (fun d => d.Close) (firstDay :: rest) := by
      rw [foldl_aggStep_drop 3 (fun d => d.Close) (fun st => st.dropC)
        (fun c => c.d3) (fun st d => aggStep_dropC st d) incrementDropCount_d3
        (firstDay :: rest) aggInit]
      rw [show aggInit.dayPrevClose = 0 from rfl, walkDropCount_zero]
      simp [aggInit]
    have hC4 : (((firstDay :: rest).foldl aggStep aggInit).dropC).d4 =
        dropPairCount 4 (fun d => d.Close) (firstDay :: rest) := by
      rw [foldl_aggStep_drop 4 (fun d => d.Close) (fun st => st.dropC)
        (fun c => c.d4) (fun st d => aggStep_dropC st d) incrementDropCount_d4
        (firstDay :: rest) aggInit]
      rw [show aggInit.dayPrevClose = 0 from rfl, walkDropCount_zero]
      simp [aggInit]
    have hC5 : (((firstDay :: rest).foldl aggStep aggInit).dropC).d5 =
        dropPairCount 5 (fun d => d.Close) (firstDay :: rest) := by
      rw [foldl_aggStep_drop 5 (fun d => d.Close) (fun st => st.dropC)
        (fun c => c.d5) (fun st d => aggStep_dropC st d) incrementDropCount_d5
        (firstDay :: rest) aggInit]
      rw [show aggInit.dayPrevClose = 0 from rfl, walkDropCount_zero]
      simp [aggInit]
    have hL2 : (((firstDay :: rest).foldl aggStep aggInit).dropL).d2 =
        dropPairCount 2 (fun d => d.Low) (firstDay :: rest) := by
      rw [foldl_aggStep_drop 2 (fun d => d.Low) (fun st => st.dropL)
        (fun c => c.d2) (fun st d => aggStep_dropL st d) incrementDropCount_d2
        (firstDay :: rest) aggInit]
      rw [show aggInit.dayPrevClose = 0 from rfl, walkDropCount_zero]
      simp [aggInit]
    have hL3 : (((firstDay :: rest).foldl aggStep aggInit).dropL).d3 =
        dropPairCount 3 (fun d => d.Low) (firstDay :: rest) := by
      rw [foldl_aggStep_drop 3 (fun d => d.Low) (fun st => st.dropL)
        (fun c => c.d3) (fun st d => aggStep_dropL st d) incrementDropCount_d3
        (firstDay :: rest) aggInit]
      rw [show aggInit.dayPrevClose = 0 from rfl, walkDropCount_zero]
      simp [aggInit]
    have hL4 : (((firstDay :: rest).foldl aggStep aggInit).dropL).d4 =
        dropPairCount 4 (fun d => d.Low) (firstDay :: rest) := by
      rw [foldl_aggStep_drop 4 (fun d => d.Low) (fun st => st.dropL)
        (fun c => c.d4) (fun st d => aggStep_dropL st d) incrementDropCount_d4
        (firstDay :: rest) aggInit]
      rw [show aggInit.dayPrevClose = 0 from rfl, walkDropCount_zero]
      simp [aggInit]
    have hL5 : (((firstDay :: rest).foldl aggStep aggInit).dropL).d5 =
        dropPairCount 5 (fun d => d.Low) (firstDay :: rest) := by
      rw [foldl_aggStep_drop 5 (fun d => d.Low) (fun st => st.dropL)
        (fun c => c.d5) (fun st d => aggStep_dropL st d) incrementDropCount_d5
        (firstDay :: rest) aggInit]
      rw [show aggInit.dayPrevClose = 0 from rfl, walkDropCount_zero]
      simp [aggInit]
    rw [hsort]
    subst hp
    refine ⟨rfl, rfl.trans ?_, ?_, ?_, ?_, ?_⟩
    · rfl
    · show (⟨_, _⟩ : DropCount) = _
      rw [hC2, hL2]
    · show (⟨_, _⟩ : DropCount) = _
      rw [hC3, hL3]
    · show (⟨_, _⟩ : DropCount) = _
      rw [hC4, hL4]
    · show (⟨_, _⟩ : DropCount) = _
      rw [hC5, hL5]

/-- Every period in the fold's accumulator either was there already or was
produced by aggPeriod from a looked-up group. -/
lemma mem_foldl_aggFoldStep (grps : List (String × List StockData)) :
    ∀ (keys : List String) (acc : List PeriodData × ℚ) (p : PeriodData),
      p ∈ (keys.foldl (aggFoldStep grps) acc).1 →
      p ∈ acc.1 ∨ ∃ k g c c', lookupGroup grps k = some g ∧
        aggPeriod k c g = some (p, c') := by
  intro keys
  induction keys with
  | nil => intro acc p hp; exact Or.inl hp
  | cons k keys' ih =>
    intro acc p hp
    have hp' := ih (aggFoldStep grps acc k) p hp
    rcases hp' with hin | hex
    · unfold aggFoldStep at hin
      rcases hg : lookupGroup grps k with _ | g
      · rw [hg] at hin
        exact Or.inl hin
      · rw [hg] at hin
        dsimp only at hin
        rcases ha : aggPeriod k acc.2 g with _ | pc
        · rw [ha] at hin
          exact Or.inl hin
        · rw [ha] at hin
          simp only at hin
          rcases List.mem_append.mp hin with hl | hr
          · exact Or.inl hl
          · have : p = pc.1 := List.mem_singleton.mp hr
            subst this
            exact Or.inr ⟨k, g, acc.2, pc.2, hg, ha⟩
    · exact Or.inr hex

/-- C1 (amended): drop classification is per day, but the running previous
close is reset at every period boundary.  Every emitted period's drop
buckets count exactly the consecutive-day pairs within that period's own
member days (sorted by date): the period's first day is classified against
nothing, even when an earlier period contains its calendar predecessor,
and the counts are attributed to the period containing the day. -/
theorem AggregateToPeriods_drops_within_period (data : List StockData)
    (pt : PeriodType) :
    ∀ p ∈ AggregateToPeriods data pt,
      ∃ g, lookupGroup (buildGroups data pt) p.Period = some g ∧
        (let days := sortLe (fun a b => strLe a.Date b.Date) g
         p.Days = days.length ∧
         p.Drop2Pct = ⟨dropPairCount 2 (fun d => d.Close) days,
                       dropPairCount 2 (fun d => d.Low) days⟩ ∧
         p.Drop3Pct = ⟨dropPairCount 3 (fun d => d.Close) days,
                       dropPairCount 3 (fun d => d.Low) days⟩ ∧
         p.Drop4Pct = ⟨dropPairCount 4 (fun d => d.Close) days,
                       dropPairCount 4 (fun d => d.Low) days⟩ ∧
         p.Drop5Pct = ⟨dropPairCount 5 (fun d => d.Close) days,
                       dropPairCount 5 (fun d => d.Low) days⟩) := by
  intro p hp
  unfold AggregateToPeriods at hp
  by_cases hde : data.isEmpty
  · rw [if_pos hde] at hp
    cases hp
  · rw [if_neg hde] at hp
    simp only [List.mem_reverse] at hp
    have hx := mem_foldl_aggFoldStep (buildGroups data pt)
      (sortLe strLe ((buildGroups data pt).map Prod.fst)) ([], 0) p hp
    rcases hx with hin | ⟨k, g, c, c', hg, ha⟩
    · cases hin
    · obtain ⟨hperiod, hfields⟩ := aggPeriod_drop_fields k c g p c' ha
      exact ⟨g, hperiod ▸ hg, hfields⟩

/-- C1 counterexample: on the two-day series crossing the January/February
boundary, the claim demands one bucket-5 close drop and one bucket-5 low
drop in period 2024-02 (the Feb 1 day classified against Jan 31's close),
but AggregateToPeriods reports zero in every bucket of every period: the
running previous close is not carried across period boundaries. -/
theorem AggregateToPeriods_drop_carry_counterexample :
    claimDropCount 5 (fun d => d.Close) PeriodType.monthly "2024-02"
        [cxJan31, cxFeb01] = 1 ∧
    claimDropCount 5 (fun d => d.Low) PeriodType.monthly "2024-02"
        [cxJan31, cxFeb01] = 1 ∧
    (AggregateToPeriods [cxJan31, cxFeb01] PeriodType.monthly).map
        (fun p => (p.Period, p.Drop5Pct.close, p.Drop5Pct.low)) =
      [("2024-02", 0, 0), ("2024-01", 0, 0)] := by
  refine ⟨?_, ?_, ?_⟩
  · unfold claimDropCount
    rw [show ([cxJan31, cxFeb01].zip [cxJan31, cxFeb01].tail) =
      [(cxJan31, cxFeb01)] from rfl]
    rw [List.countP_cons, List.countP_nil]
    have hpair : pairCond 5 (fun d => d.Close) cxJan31 cxFeb01 = true := by
      unfold pairCond cxJan31 cxFeb01 pctChange
      simp only [Bool.and_eq_true, decide_eq_true_eq, beq_iff_eq]
      constructor
      · norm_num
      · have : ((90 : ℚ) - 100) / 100 * 100 = -10 := by norm_num
        rw [this]
        unfold classifyDropPct
        norm_num
    have hkey : (match goParseDate cxFeb01.Date with
        | some dt => getPeriodKey dt PeriodType.monthly == "2024-02"
        | none => false) = true := by decide
    dsimp only
    rw [hpair, hkey]
    rfl
  · unfold claimDropCount
    rw [show ([cxJan31, cxFeb01].zip [cxJan31, cxFeb01].tail) =
      [(cxJan31, cxFeb01)] from rfl]
    rw [List.countP_cons, List.countP_nil]
    have hpair : pairCond 5 (fun d => d.Low) cxJan31 cxFeb01 = true := by
      unfold pairCond cxJan31 cxFeb01 pctChange
      simp only [Bool.and_eq_true, decide_eq_true_eq, beq_iff_eq]
      constructor
      · norm_num
      · have : ((89 : ℚ) - 100) / 100 * 100 = -11 := by norm_num
        rw [this]
        unfold classifyDropPct
        norm_num
    have hkey : (match goParseDate cxFeb01.Date with
        | some dt => getPeriodKey dt PeriodType.monthly == "2024-02"
        | none => false) = true := by decide
    dsimp only
    rw [hpair, hkey]
    rfl
  · rfl

/-! ### Claim C3 -/

/-- C3: whenever fetch metadata exists and covers the requested start date
but is not fresh, the Provider is invoked exactly once, with
fetchDays = min(requestedDays, daysSinceLastFetch + 5) where
daysSinceLastFetch is the whole number of days elapsed since
last_fetched. -/
theorem fetchStockData_delta_window (cs : CacheState) (days : Int)
    (useYahoo : Bool) (provider : Bool → Int → Except String ProviderReply)
    (now : GoTime) (m : FetchMeta) (hmeta : cs.meta = some m)
    (hcov : CoversRange m (requestStartDate now days) = true)
    (hfresh : IsFresh m now = false) :
    (fetchStockData (some cs) days useYahoo provider now).providerCalls =
      [min days (goDaysSince now m.lastFetched + 5)] := by
  unfold fetchStockData
  simp only [hmeta, hfresh, Bool.false_and, if_neg (Bool.false_ne_true)]
  have hdays : (if CoversRange m (requestStartDate now days) then
      (if goDaysSince now m.lastFetched + 5 < days then
        goDaysSince now m.lastFetched + 5 else days) else days) =
      min days (goDaysSince now m.lastFetched + 5) := by
    rw [if_pos hcov]
    rcases lt_or_le (goDaysSince now m.lastFetched + 5) days with h | h
    · rw [if_pos h, min_eq_right (le_of_lt h)]
    · rw [if_neg (not_lt.mpr h), min_eq_left h]
  rw [hdays]
  rcases hp : provider useYahoo (min days (goDaysSince now m.lastFetched + 5)) with e | r
  · simp only
    split <;> rfl
  · simp only
    split <;> split <;> rfl

/-! ### Claim C4 -/

/-- C4: when fetch metadata exists and the Provider fails, the orchestrator
returns the cached rows of the requested range together with the existing
metadata's TTM EPS, company name and the hasPE flag derived from the
metadata's source, and no error, whenever that range read is nonempty;
when it is empty the original Provider error is returned. -/
theorem fetchStockData_provider_failure (cs : CacheState) (days : Int)
    (useYahoo : Bool) (e : String) (now : GoTime) (m : FetchMeta)
    (hmeta : cs.meta = some m) :
    (fetchStockData (some cs) days useYahoo (fun _ _ => .error e) now).outcome =
      (if (GetDailyPrices cs.rows (requestStartDate now days)
            (formatDate now.d)).isEmpty
       then .error e
       else .ok (GetDailyPrices cs.rows (requestStartDate now days)
            (formatDate now.d),
          m.ttmEPS, m.companyName, m.source == "macrotrends")) := by
  unfold fetchStockData
  simp only [hmeta]
  by_cases hfc : (IsFresh m now && CoversRange m (requestStartDate now days)) = true <;>
    by_cases hde : (GetDailyPrices cs.rows (requestStartDate now days)
        (formatDate now.d)).isEmpty = true <;>
    simp [hfc, hde]

/-! ### Claim C5 -/

/-- C5 (amended): when fetch metadata exists, is fresh, covers the
requested start date, and the cache range read returns at least one row,
the orchestrator serves that read directly (with the metadata's EPS,
company name and source-derived hasPE flag) and makes no Provider call.
The code falls through to the Provider when the read comes back empty, so
the extra nonemptiness condition is necessary (see the counterexample). -/
theorem fetchStockData_fresh_hit (cs : CacheState) (days : Int)
    (useYahoo : Bool) (provider : Bool → Int → Except String ProviderReply)
    (now : GoTime) (m : FetchMeta) (hmeta : cs.meta = some m)
    (hfresh : IsFresh m now = true)
    (hcov : CoversRange m (requestStartDate now days) = true)
    (hne : (GetDailyPrices cs.rows (requestStartDate now days)
        (formatDate now.d)).isEmpty = false) :
    (fetchStockData (some cs) days useYahoo provider now).outcome =
      .ok (GetDailyPrices cs.rows (requestStartDate now days) (formatDate now.d),
        m.ttmEPS, m.companyName, m.source == "macrotrends") ∧
    (fetchStockData (some cs) days useYahoo provider now).providerCalls = [] := by
  unfold fetchStockData
  simp only [hmeta, hfresh, hcov, Bool.and_self, if_pos, hne,
    Bool.false_eq_true, if_neg]
  exact ⟨rfl, rfl⟩

/-- C5 counterexample: metadata exists, is fresh and covers the requested
start date, yet the orchestrator does call the Provider, because the cache
holds no row of the range: the claim's unconditional "no provider call" is
false, and the delta window min(365, 0 + 5) = 5 is used. -/
theorem fetchStockData_fresh_hit_counterexample :
    IsFresh cxEmptyMeta cxNow = true ∧
    CoversRange cxEmptyMeta (requestStartDate cxNow 365) = true ∧
    (fetchStockData (some { rows := [], meta := some cxEmptyMeta }) 365 false
        (fun _ _ => .ok { data := [], ttmEPS := 0, companyName := "", includePE := true })
        cxNow).providerCalls = [5] := by
  refine ⟨by decide, by decide, ?_⟩
  decide

/-! ### Concrete witnesses -/

theorem IsFresh_iff_same_calendar_day_witness :
    (IsFresh w8Meta w8Now = true ↔ w8Meta.lastFetched.d = w8Now.d) ∧
    (∀ a b : Nat,
      IsFresh { w8Meta with lastFetched := { w8Meta.lastFetched with tod := a } }
        { w8Now with tod := b } = IsFresh w8Meta w8Now) :=
  IsFresh_iff_same_calendar_day w8Meta w8Now (by decide) (by decide)

/-- Witness for C2 on a sub-range query of w2Tbl: the positivity
hypothesis holds on the queried rows. -/
theorem GetDailyPrices_closed_form_witness :
    GetDailyPrices w2Tbl "2024-01-03" "2024-01-05" =
      (deriveIndexed (rangeRows w2Tbl "2024-01-03" "2024-01-05")).reverse ∧
    (GetDailyPrices w2Tbl "2024-01-03" "2024-01-05").getLast?.map
        (fun d => (d.Change, d.HChange)) =
      (rangeRows w2Tbl "2024-01-03" "2024-01-05").head?.map
        (fun _ => ((none : Option ℚ), (none : Option ℚ))) :=
  GetDailyPrices_closed_form w2Tbl "2024-01-03" "2024-01-05" (by decide)

/-- Witness for C3: metadata stale by one day and covering, so the
Provider window is min(365, 1 + 5). -/
theorem fetchStockData_delta_window_witness :
    (fetchStockData (some { rows := [], meta := some staleMeta }) 365 false
        (fun _ _ => .error "upstream down") staleNow).providerCalls =
      [min 365 (goDaysSince staleNow staleMeta.lastFetched + 5)] :=
  fetchStockData_delta_window _ 365 false _ staleNow staleMeta rfl
    (by decide) (by decide)

/-- Witness for C4: with metadata present and a failing Provider the
outcome is the cache fallback (here the range read is nonempty, so the
cached rows are served with the metadata's EPS and company name). -/
theorem fetchStockData_provider_failure_witness :
    (fetchStockData (some { rows := w4Rows, meta := some staleMeta }) 365 false
        (fun _ _ => .error "boom") staleNow).outcome =
      (if (GetDailyPrices w4Rows (requestStartDate staleNow 365)
            (formatDate staleNow.d)).isEmpty
       then .error "boom"
       else .ok (GetDailyPrices w4Rows (requestStartDate staleNow 365)
            (formatDate staleNow.d),
          staleMeta.ttmEPS, staleMeta.companyName,
          staleMeta.source == "macrotrends")) :=
  fetchStockData_provider_failure _ 365 false "boom" staleNow staleMeta rfl

/-- Witness for C5 (amended): fresh covering metadata with a nonempty
range read is served from the cache with no Provider call. -/
theorem fetchStockData_fresh_hit_witness :
    (fetchStockData (some { rows := w4Rows, meta := some cxEmptyMeta }) 365 false
        (fun _ _ => .error "never called") cxNow).outcome =
      .ok (GetDailyPrices w4Rows (requestStartDate cxNow 365) (formatDate cxNow.d),
        cxEmptyMeta.ttmEPS, cxEmptyMeta.companyName,
        cxEmptyMeta.source == "macrotrends") ∧
    (fetchStockData (some { rows := w4Rows, meta := some cxEmptyMeta }) 365 false
        (fun _ _ => .error "never called") cxNow).providerCalls = [] :=
  fetchStockData_fresh_hit _ 365 false _ cxNow cxEmptyMeta rfl (by decide)
    (by decide) (by decide)

/-- Witness for C1 (amended) on the one-day January series: the emitted
period's drop buckets are the within-period pair counts. -/
theorem AggregateToPeriods_drops_within_period_witness :
    ∃ p, (AggregateToPeriods [cxJan31] PeriodType.monthly).head? = some p ∧
      ∃ g, lookupGroup (buildGroups [cxJan31] PeriodType.monthly) p.Period = some g ∧
        (let days := sortLe (fun a b => strLe a.Date b.Date) g
         p.Days = days.length ∧
         p.Drop2Pct = ⟨dropPairCount 2 (fun d => d.Close) days,
                       dropPairCount 2 (fun d => d.Low) days⟩ ∧
         p.Drop3Pct = ⟨dropPairCount 3 (fun d => d.Close) days,
                       dropPairCount 3 (fun d => d.Low) days⟩ ∧
         p.Drop4Pct = ⟨dropPairCount 4 (fun d => d.Close) days,
                       dropPairCount 4 (fun d => d.Low) days⟩ ∧
         p.Drop5Pct = ⟨dropPairCount 5 (fun d => d.Close) days,
                       dropPairCount 5 (fun d => d.Low) days⟩) := by
  have hlen : (AggregateToPeriods [cxJan31] PeriodType.monthly).length = 1 := rfl
  cases hl : AggregateToPeriods [cxJan31] PeriodType.monthly with
  | nil =>
    rw [hl] at hlen
    cases hlen
  | cons p rest =>
    refine ⟨p, rfl, ?_⟩
    exact AggregateToPeriods_drops_within_period [cxJan31] PeriodType.monthly p
      (by rw [hl]; exact List.mem_cons_self _ _)

end StockFetcher
